import Mathlib

/-!
Shallow embedding of the raw-image-viewer decoding core (src/src/main.cpp):
bit readers, per-pixel endianness adjustment, 8-bit scaling, the preset
catalog and the viewport renderer.  Bytes are `Nat` values below 256, byte
buffers are `List Nat`, machine-integer truncation is explicit `% 2^w`.
-/

namespace RawViewer

/-- `2^32`, the modulus of the C++ `uint32_t` arithmetic. -/
def U32 : Nat := 2 ^ 32

/-- `2^64`, the modulus of the C++ `uint64_t` / `size_t` arithmetic. -/
def U64 : Nat := 2 ^ 64

/-- The bit `read_bits_msb` extracts at absolute position `p`:
`(data[p >> 3] >> (7 - (p & 7))) & 1` when `p < total_bits`, else 0. -/
def bit_msb (data : List Nat) (total_bits p : Nat) : Nat :=
  if p < total_bits then data.getD (p / 8) 0 / 2 ^ (7 - p % 8) % 2 else 0

/-- `read_bits_msb`: reads `nbits` MSB-first from `data` starting at `bitpos`.
The accumulator `val` is a C++ `uint32_t`, so `(val << 1) | bit` is
`(2 * val + bit) % 2^32`; the function also returns `uint32_t`. -/
def read_bits_msb (data : List Nat) (total_bits bitpos nbits : Nat) : Nat :=
  (List.range nbits).foldl
    (fun val i => (2 * val + bit_msb data total_bits (bitpos + i)) % U32) 0

/-- The bit `read_bits_lsb` extracts at absolute position `p`:
`(data[p >> 3] >> (p & 7)) & 1` when `p < total_bits`, else 0. -/
def bit_lsb (data : List Nat) (total_bits p : Nat) : Nat :=
  if p < total_bits then data.getD (p / 8) 0 / 2 ^ (p % 8) % 2 else 0

/-- Models the C++ expression `static_cast<size_t>(bit << i)` in
`read_bits_lsb`, with `bit : uint8_t` in {0,1} promoted to a 32-bit `int`.
For `bit = 0` the result is 0.  For `bit = 1` and `i ≤ 30` it is `2^i`; at
`i = 31` the two's-complement shift wraps to `INT_MIN` and the cast
sign-extends, giving `2^64 - 2^31`; for `i ≥ 32` the shift count is out of
range for `int` (the target masks the count to `i % 32`). -/
def lsb_term (b i : Nat) : Nat :=
  if b = 0 then 0 else if i % 32 = 31 then U64 - 2 ^ 31 else 2 ^ (i % 32)

/-- `read_bits_lsb`: reads `nbits` LSB-first from `data` starting at `bitpos`.
The accumulator `val` is a `size_t`, but the function's declared return type
is `uint32_t`, so the final value is truncated `% 2^32`. -/
def read_bits_lsb (data : List Nat) (total_bits bitpos nbits : Nat) : Nat :=
  ((List.range nbits).foldl
    (fun val i => val ||| lsb_term (bit_lsb data total_bits (bitpos + i)) i) 0) % U32

/-- Models `(1ull << bpp) - 1ull` on line 74 of `main.cpp`.  For
`bpp ∈ [1,63]` this is `2^bpp - 1`; for `bpp = 64` the C++ shift count is out
of range for `uint64_t` (the target masks it to `bpp % 64`, so the mask
collapses to 0 — unlike line 62, this site has no `bpp >= 64` guard). -/
def cpp_mask (bpp : Nat) : Nat := 2 ^ (bpp % 64) - 1

/-- The byte-reversal loop of `adjust_endianness_pixel`:
`bytes[i] = (v >> (nbytes - 1 - i) * 8) & 0xFF`, then
`out = (out << 8) | bytes[nbytes - 1 - i]`; since
`bytes[nbytes - 1 - i] = (v >> i * 8) & 0xFF`, the fold below reassembles
`v`'s bytes least-significant-first. -/
def swap_bytes (v nbytes : Nat) : Nat :=
  (List.range nbytes).foldl (fun out i => out * 256 + v / 2 ^ (8 * i) % 256) 0

/-- `adjust_endianness_pixel`: byte-order correction of a decoded pixel word.
Big-endian or `bpp ≤ 8`: mask to `bpp` bits (all-ones mask when `bpp ≥ 64`,
the `pixel_val` argument being a `size_t`).  Little-endian and `bpp > 8`:
reverse the `(bpp + 7) / 8` bytes, then `& ((1ull << bpp) - 1ull)`
(see `cpp_mask`). -/
def adjust_endianness_pixel (pixel_val : Nat) (bpp : Nat) (little_endian : Bool) : Nat :=
  if little_endian = false ∨ bpp ≤ 8 then
    if 64 ≤ bpp then pixel_val % U64 else pixel_val % 2 ^ bpp
  else
    let nbytes := (bpp + 7) / 8
    swap_bytes pixel_val nbytes % (cpp_mask bpp + 1)

/-- `scale_to_8`: map a `bits`-wide raw sample (a `uint64_t`) to 8 bits.
`bits = 0 → 0`; `bits = 8` → low byte; `bits > 8` → top 8 of the `bits`
(`(raw >> (bits - 8)) & 0xFF`); `0 < bits < 8` → linear expansion
`(raw * 255 + maxv / 2) / maxv` in `uint64_t` arithmetic, cast to `uint8_t`. -/
def scale_to_8 (raw : Nat) (bits : Nat) : Nat :=
  if bits = 0 then 0
  else if 8 ≤ bits then
    if bits = 8 then raw % 256
    else raw / 2 ^ (bits - 8) % 256
  else
    (raw * 255 + (2 ^ bits - 1) / 2) % U64 / (2 ^ bits - 1) % 256
    -- (`maxv = (1ull << bits) - 1` is inlined above)

/-- The MSB-first assembly described by the spec's BitReader contract
(§4.1): shift left and OR successive bits, with no width limit, so the first
bit read lands at result bit `nbits - 1`.  Stated for comparison with
`read_bits_msb`, whose `uint32_t` accumulator and return type keep only the
low 32 bits of this value. -/
def read_bits_msb_spec (data : List Nat) (total_bits bitpos nbits : Nat) : Nat :=
  (List.range nbits).foldl
    (fun val i => 2 * val + bit_msb data total_bits (bitpos + i)) 0

/-- A preset field: channel tag (`'r'`, `'g'`, `'b'`, `'a'`, `'y'`) and its
bit width. -/
structure Field where
  name : Char
  bits : Nat
deriving DecidableEq

/-- A preset: label, applicable bpp list, MSB-to-LSB field layout, and the
(unused) `lsb_order` flag. -/
structure Preset where
  label : String
  bpps : List Nat
  fields : List Field
  lsb_order : Bool
deriving DecidableEq

/-- `build_presets`: the built-in preset catalog, in source order. -/
def build_presets : List Preset :=
  [⟨"1-bit: Monochrome (MSB)", [1], [⟨'y', 1⟩], false⟩,
   ⟨"4-bit: Grayscale", [4], [⟨'y', 4⟩], false⟩,
   ⟨"4-bit: 2R-1G-1B", [4], [⟨'r', 2⟩, ⟨'g', 1⟩, ⟨'b', 1⟩], false⟩,
   ⟨"8-bit: Grayscale", [8], [⟨'y', 8⟩], false⟩,
   ⟨"8-bit: R3-G3-B2", [8], [⟨'r', 3⟩, ⟨'g', 3⟩, ⟨'b', 2⟩], false⟩,
   ⟨"8-bit: B3-G3-R2", [8], [⟨'b', 3⟩, ⟨'g', 3⟩, ⟨'r', 2⟩], false⟩,
   ⟨"8-bit: R2-G3-B3", [8], [⟨'r', 2⟩, ⟨'g', 3⟩, ⟨'b', 3⟩], false⟩,
   ⟨"8-bit: A2-R2-G2-B2", [8], [⟨'a', 2⟩, ⟨'r', 2⟩, ⟨'g', 2⟩, ⟨'b', 2⟩], false⟩,
   ⟨"8-bit: A1-R2-G3-B2", [8], [⟨'a', 1⟩, ⟨'r', 2⟩, ⟨'g', 3⟩, ⟨'b', 2⟩], false⟩,
   ⟨"16-bit: R5-G6-B5", [16], [⟨'r', 5⟩, ⟨'g', 6⟩, ⟨'b', 5⟩], false⟩,
   ⟨"16-bit: A1-R5-G5-B5", [16], [⟨'a', 1⟩, ⟨'r', 5⟩, ⟨'g', 5⟩, ⟨'b', 5⟩], false⟩,
   ⟨"16-bit: R4-G4-B4-A4", [16], [⟨'r', 4⟩, ⟨'g', 4⟩, ⟨'b', 4⟩, ⟨'a', 4⟩], false⟩,
   ⟨"16-bit: R3-G4-B3", [16], [⟨'r', 3⟩, ⟨'g', 4⟩, ⟨'b', 3⟩], false⟩,
   ⟨"16-bit: B3-G4-R3", [16], [⟨'b', 3⟩, ⟨'g', 4⟩, ⟨'r', 3⟩], false⟩,
   ⟨"16-bit: A1-R3-G3-B3", [16], [⟨'a', 1⟩, ⟨'r', 3⟩, ⟨'g', 3⟩, ⟨'b', 3⟩], false⟩,
   ⟨"24-bit: R-G-B", [24], [⟨'r', 8⟩, ⟨'g', 8⟩, ⟨'b', 8⟩], false⟩,
   ⟨"24-bit: B-G-R", [24], [⟨'b', 8⟩, ⟨'g', 8⟩, ⟨'r', 8⟩], false⟩,
   ⟨"32-bit: R-G-B-A", [32], [⟨'r', 8⟩, ⟨'g', 8⟩, ⟨'b', 8⟩, ⟨'a', 8⟩], false⟩,
   ⟨"32-bit: A-R-G-B", [32], [⟨'a', 8⟩, ⟨'r', 8⟩, ⟨'g', 8⟩, ⟨'b', 8⟩], false⟩,
   ⟨"32-bit: A-B-G-R", [32], [⟨'a', 8⟩, ⟨'b', 8⟩, ⟨'g', 8⟩, ⟨'r', 8⟩], false⟩,
   ⟨"32-bit: B-G-R-A", [32], [⟨'b', 8⟩, ⟨'g', 8⟩, ⟨'r', 8⟩, ⟨'a', 8⟩], false⟩]

/-- The decode-relevant fields of `ViewerState` (the UI-only members
`filename` and `preset_idx` are not read by the renderer and are omitted). -/
structure ViewerState where
  data : List Nat
  stofs : Nat
  width_px : Nat
  bpp : Nat
  bit_align : Nat
  bit_order_msb : Bool
  byte_order_le : Bool
deriving DecidableEq

/-- One RGBA pixel, channel bytes in r, g, b, a order. -/
structure RGBA where
  r : Nat
  g : Nat
  b : Nat
  a : Nat
deriving DecidableEq

/-- One iteration of the field-decomposition loop in `render_viewport`:
state is `(cur_shift, channels)`; `use = min(bits, cur_shift)`;
`rawcomp = (pixel_val >> (cur_shift - use)) & ((1 << use) - 1)` when both
`cur_shift` and `use` are positive; the scaled byte is routed by the channel
tag (`'y'` sets r, g and b; an unrecognized tag zeroes r, g and b).
The mask is modelled as `% 2^use`; a `use` of 64 would make the C++ shift
count out of range, but no catalog preset has a field wider than 8 bits. -/
def apply_field (pixel_val : Nat) (st : Nat × RGBA) (f : Field) : Nat × RGBA :=
  let cur_shift := st.1
  let use := min f.bits cur_shift
  let rawcomp :=
    if 0 < cur_shift ∧ 0 < use then pixel_val / 2 ^ (cur_shift - use) % 2 ^ use else 0
  let val8 := scale_to_8 rawcomp use
  let c := st.2
  let c2 : RGBA :=
    if f.name = 'r' then ⟨val8, c.g, c.b, c.a⟩
    else if f.name = 'g' then ⟨c.r, val8, c.b, c.a⟩
    else if f.name = 'b' then ⟨c.r, c.g, val8, c.a⟩
    else if f.name = 'a' then ⟨c.r, c.g, c.b, val8⟩
    else if f.name = 'y' then ⟨val8, val8, val8, c.a⟩
    else ⟨0, 0, 0, c.a⟩
  (cur_shift - use, c2)

/-- The body of `render_viewport`'s per-pixel loop for a decoded pixel
(`p < pixels_available`): read `bpp` bits at the pixel's bit position under
the selected bit order, adjust endianness, decompose through the preset's
fields starting from `(bpp, (255,255,255,255))`, and emit the 4 RGBA bytes.
The loop advances `bitpos` by `bpp` once per decoded pixel, so the `p`-th
decoded pixel reads at `start_bit + p * bpp`; `decode_pixel` receives that
position directly. -/
def decode_pixel (s : ViewerState) (preset : Preset) (total_bits bitpos : Nat) : List Nat :=
  let pv0 :=
    if s.bit_order_msb then read_bits_msb s.data total_bits bitpos s.bpp
    else read_bits_lsb s.data total_bits bitpos s.bpp
  let pixel_val := adjust_endianness_pixel pv0 s.bpp s.byte_order_le
  let res := preset.fields.foldl (apply_field pixel_val) (s.bpp, ⟨255, 255, 255, 255⟩)
  [res.2.r, res.2.g, res.2.b, res.2.a]

/-- The renderer's output: the RGBA byte array and `out_rows_rendered`. -/
structure RenderResult where
  pixels : List Nat
  rows_rendered : Nat
deriving DecidableEq

/-- `total_bits = s.data.size() * 8` in `render_viewport`. -/
def totalBits (s : ViewerState) : Nat := s.data.length * 8

/-- `start_bit = s.stofs * 8 + s.bit_align` in `render_viewport`. -/
def startBit (s : ViewerState) : Nat := s.stofs * 8 + s.bit_align

/-- `width = max<int>(1, s.width_px)` in `render_viewport`. -/
def widthOf (s : ViewerState) : Nat := max 1 s.width_px

/-- `pixels_available = (total_bits - start_bit) / s.bpp` in
`render_viewport` (`size_t` division). -/
def pixelsAvailable (s : ViewerState) : Nat := (totalBits s - startBit s) / s.bpp

/-- `render_viewport`: decode a `width × rows` window.  Empty cases return
`rows_rendered = 0` with a cleared buffer.  `min<uint32_t>` truncates both
of its arguments to `uint32_t` (`% 2^32`), and `rows_needed` is computed in
`uint32_t` arithmetic.  The output list models
`out_pixels.assign(rows_needed * width * 4, 0)` followed by the pixel loop:
index `p ≥ pixels_available` (compared against the untruncated `size_t`
value) leaves the four bytes 0, otherwise the pixel decodes at
`start_bit + p * bpp`.  (When `rows_needed * width * 4 ≥ 2^32` the C++
allocation size wraps while the loop bound does not and the program writes
out of bounds — undefined; the model uses the exact product.) -/
def render_viewport (s : ViewerState) (preset : Preset) (rows : Nat) : RenderResult :=
  if totalBits s ≤ startBit s then ⟨[], 0⟩
  else
    let width := widthOf s
    let pixels_to_render := rows * width
    if pixelsAvailable s = 0 then ⟨[], 0⟩
    else
      let actual_pixels := min (pixels_to_render % U32) (pixelsAvailable s % U32)
      let rows_needed := (actual_pixels + width - 1) % U32 / width
      let out := (List.range (rows_needed * width)).flatMap fun p =>
        if pixelsAvailable s ≤ p then [0, 0, 0, 0]
        else decode_pixel s preset (totalBits s) (startBit s + p * s.bpp)
      ⟨out, rows_needed⟩

/-! ### Helper lemmas -/

lemma bit_msb_lt_two (data : List Nat) (tb p : Nat) : bit_msb data tb p < 2 := by
  unfold bit_msb
  split
  · exact Nat.mod_lt _ (by norm_num)
  · norm_num

lemma bit_lsb_lt_two (data : List Nat) (tb p : Nat) : bit_lsb data tb p < 2 := by
  unfold bit_lsb
  split
  · exact Nat.mod_lt _ (by norm_num)
  · norm_num

lemma bit_msb_of_ge {data : List Nat} {tb p : Nat} (h : tb ≤ p) :
    bit_msb data tb p = 0 := by
  unfold bit_msb
  rw [if_neg (by omega)]

lemma bit_lsb_of_ge {data : List Nat} {tb p : Nat} (h : tb ≤ p) :
    bit_lsb data tb p = 0 := by
  unfold bit_lsb
  rw [if_neg (by omega)]

lemma lsb_term_of_zero (i : Nat) : lsb_term 0 i = 0 := by
  unfold lsb_term
  rw [if_pos rfl]

lemma lsb_term_at_zero {b : Nat} (hb : b < 2) : lsb_term b 0 = b := by
  unfold lsb_term
  interval_cases b <;> simp

lemma two_lt_U32 : 2 < U32 := by
  unfold U32
  norm_num

lemma read_bits_msb_of_ge {data : List Nat} {tb start : Nat} (h : tb ≤ start)
    (nbits : Nat) : read_bits_msb data tb start nbits = 0 := by
  unfold read_bits_msb
  induction nbits with
  | zero => rfl
  | succ n ih =>
    rw [List.range_succ, List.foldl_append, ih]
    simp [bit_msb_of_ge (show tb ≤ start + n by omega)]

lemma read_bits_lsb_of_ge {data : List Nat} {tb start : Nat} (h : tb ≤ start)
    (nbits : Nat) : read_bits_lsb data tb start nbits = 0 := by
  unfold read_bits_lsb
  have haux : ∀ n, (List.range n).foldl
      (fun val i => val ||| lsb_term (bit_lsb data tb (start + i)) i) 0 = 0 := by
    intro n
    induction n with
    | zero => rfl
    | succ m ih =>
      rw [List.range_succ, List.foldl_append, ih]
      simp [bit_lsb_of_ge (show tb ≤ start + m by omega), lsb_term_of_zero]
  rw [haux]
  exact Nat.zero_mod _

lemma read_bits_msb_one (data : List Nat) (tb p : Nat) :
    read_bits_msb data tb p 1 = bit_msb data tb p := by
  unfold read_bits_msb
  rw [show List.range 1 = [0] from rfl]
  simp only [List.foldl_cons, List.foldl_nil, Nat.mul_zero, Nat.zero_add, Nat.add_zero]
  exact Nat.mod_eq_of_lt (lt_trans (bit_msb_lt_two data tb p) two_lt_U32)

lemma read_bits_lsb_one (data : List Nat) (tb p : Nat) :
    read_bits_lsb data tb p 1 = bit_lsb data tb p := by
  unfold read_bits_lsb
  rw [show List.range 1 = [0] from rfl]
  simp only [List.foldl_cons, List.foldl_nil, Nat.add_zero]
  rw [Nat.zero_or, lsb_term_at_zero (bit_lsb_lt_two data tb p)]
  exact Nat.mod_eq_of_lt (lt_trans (bit_lsb_lt_two data tb p) two_lt_U32)

lemma decode_pixel_length (s : ViewerState) (preset : Preset) (tb bp : Nat) :
    (decode_pixel s preset tb bp).length = 4 := rfl

lemma length_flatMap_four (l : List Nat) (f : Nat → List Nat)
    (h : ∀ a ∈ l, (f a).length = 4) : (l.flatMap f).length = 4 * l.length := by
  induction l with
  | nil => rfl
  | cons a t ih =>
    rw [List.flatMap_cons, List.length_append, h a (by simp),
        ih (fun b hb => h b (by simp [hb])), List.length_cons]
    ring

lemma getD_zero_of_all_zero (l : List Nat) (h : ∀ y ∈ l, y = 0) (i : Nat) :
    l.getD i 0 = 0 := by
  induction l generalizing i with
  | nil => simp
  | cons a t ih =>
    cases i with
    | zero => exact h a (by simp)
    | succ j => exact ih (fun y hy => h y (by simp [hy])) j

lemma tail_getD_zero (pa n i : Nat) (f : Nat → List Nat)
    (hlen : ∀ p, (f p).length = 4) (hpan : pa ≤ n) (hi : 4 * pa ≤ i) :
    ((List.range n).flatMap
      (fun p => if pa ≤ p then [0, 0, 0, 0] else f p)).getD i 0 = 0 := by
  obtain ⟨k, rfl⟩ := Nat.exists_eq_add_of_le hpan
  rw [List.range_add, List.flatMap_append]
  have hblocks : ∀ a ∈ List.range pa,
      ((fun p => if pa ≤ p then [0, 0, 0, 0] else f p) a).length = 4 := by
    intro a ha
    rw [List.mem_range] at ha
    simp only [if_neg (show ¬ pa ≤ a by omega)]
    exact hlen a
  have hfirst : ((List.range pa).flatMap
      (fun p => if pa ≤ p then [0, 0, 0, 0] else f p)).length = 4 * pa := by
    rw [length_flatMap_four _ _ hblocks, List.length_range]
  rw [List.getD_append_right _ _ _ _ (hfirst.le.trans hi)]
  apply getD_zero_of_all_zero
  intro y hy
  rw [List.mem_flatMap] at hy
  obtain ⟨a, ha, hya⟩ := hy
  rw [List.mem_map] at ha
  obtain ⟨x, _, rfl⟩ := ha
  rw [if_pos (by omega)] at hya
  simpa using hya

lemma render_viewport_main (s : ViewerState) (preset : Preset) (rows : Nat)
    (h1 : startBit s < totalBits s) (h2 : pixelsAvailable s ≠ 0) :
    render_viewport s preset rows =
      ⟨(List.range ((min (rows * widthOf s % U32) (pixelsAvailable s % U32)
            + widthOf s - 1) % U32 / widthOf s * widthOf s)).flatMap
          (fun p => if pixelsAvailable s ≤ p then [0, 0, 0, 0]
                    else decode_pixel s preset (totalBits s) (startBit s + p * s.bpp)),
        (min (rows * widthOf s % U32) (pixelsAvailable s % U32)
            + widthOf s - 1) % U32 / widthOf s⟩ := by
  unfold render_viewport
  rw [if_neg (by omega), if_neg h2]

lemma render_viewport_rows (s : ViewerState) (preset : Preset) (rows : Nat)
    (h1 : startBit s < totalBits s) (h2 : pixelsAvailable s ≠ 0) :
    (render_viewport s preset rows).rows_rendered =
      (min (rows * widthOf s % U32) (pixelsAvailable s % U32)
          + widthOf s - 1) % U32 / widthOf s := by
  rw [render_viewport_main s preset rows h1 h2]

lemma render_viewport_pixels (s : ViewerState) (preset : Preset) (rows : Nat)
    (h1 : startBit s < totalBits s) (h2 : pixelsAvailable s ≠ 0) :
    (render_viewport s preset rows).pixels =
      (List.range ((min (rows * widthOf s % U32) (pixelsAvailable s % U32)
          + widthOf s - 1) % U32 / widthOf s * widthOf s)).flatMap
        (fun p => if pixelsAvailable s ≤ p then [0, 0, 0, 0]
                  else decode_pixel s preset (totalBits s) (startBit s + p * s.bpp)) := by
  rw [render_viewport_main s preset rows h1 h2]

/-- The 4-bit grayscale preset, catalog entry 1 of `build_presets`. -/
def preset_gray4 : Preset := ⟨"4-bit: Grayscale", [4], [⟨'y', 4⟩], false⟩

/-- The 8-bit grayscale preset, catalog entry 3 of `build_presets`. -/
def preset_gray8 : Preset := ⟨"8-bit: Grayscale", [8], [⟨'y', 8⟩], false⟩

lemma preset_gray4_in_catalog : preset_gray4 ∈ build_presets := by decide

lemma preset_gray8_in_catalog : preset_gray8 ∈ build_presets := by decide

/-! ### Claims -/

/-- C1: the spec's BitReader contract promises the full MSB-first assembly
for `nbits` up to 64, but `read_bits_msb`'s `uint32_t` accumulator and
return type drop every bit shifted past position 31.  Reading 33 bits of
`[0x80, 0, 0, 0, 0]` from position 0 must yield `2^32` (first bit read at
result bit 32) per the contract, yet the code returns 0. -/
theorem c1_read_bits_width_truncated :
    read_bits_msb [128, 0, 0, 0, 0] 40 0 33 = 0 ∧
    read_bits_msb_spec [128, 0, 0, 0, 0] 40 0 33 = 2 ^ 32 := by decide

/-- C3: a bit position at or past `total_bits` contributes a 0 bit under
both orders, and a read whose start (hence every position) lies at or past
`total_bits` returns 0, for any read length. -/
theorem c3_zero_padding (data : List Nat) (p start nbits : Nat)
    (hp : data.length * 8 ≤ p) (hs : data.length * 8 ≤ start) :
    bit_msb data (data.length * 8) p = 0 ∧
    bit_lsb data (data.length * 8) p = 0 ∧
    read_bits_msb data (data.length * 8) start nbits = 0 ∧
    read_bits_lsb data (data.length * 8) start nbits = 0 :=
  ⟨bit_msb_of_ge hp, bit_lsb_of_ge hp,
   read_bits_msb_of_ge hs nbits, read_bits_lsb_of_ge hs nbits⟩

/-- C3 witness: the buffer `[7]` has 8 bits; position 9 contributes 0 and a
64-bit read starting at bit 8 returns 0. -/
theorem c3_zero_padding_check :
    bit_msb [7] 8 9 = 0 ∧ bit_lsb [7] 8 9 = 0 ∧
    read_bits_msb [7] 8 8 64 = 0 ∧ read_bits_lsb [7] 8 8 64 = 0 :=
  c3_zero_padding [7] 9 8 64 (by decide) (by decide)

/-- C5 counterexample: on the buffer `[0x01]` the single-bit reads at
position 0 disagree: MSB-first reads the byte's top bit (0), LSB-first its
bottom bit (1), so single-bit reads are not order-independent. -/
theorem c5_counterexample :
    read_bits_msb [1] 8 0 1 = 0 ∧ read_bits_lsb [1] 8 0 1 = 1 := by decide

/-- C5 amended: a single-bit MSB-first read at position `p` equals the
single-bit LSB-first read at the mirrored position `8*(p/8) + (7 - p%8)` of
the same byte; the two orders select mirrored bits, and agree at equal
positions only when those mirrored bits coincide. -/
theorem c5_mirrored_single_bits (data : List Nat) (p : Nat) :
    read_bits_msb data (data.length * 8) p 1 =
    read_bits_lsb data (data.length * 8) (8 * (p / 8) + (7 - p % 8)) 1 := by
  rw [read_bits_msb_one, read_bits_lsb_one]
  have hdm := Nat.div_add_mod p 8
  have hml : p % 8 < 8 := Nat.mod_lt _ (by norm_num)
  have hmod : (8 * (p / 8) + (7 - p % 8)) % 8 = 7 - p % 8 := by omega
  have hdiv : (8 * (p / 8) + (7 - p % 8)) / 8 = p / 8 := by omega
  unfold bit_msb bit_lsb
  rw [hmod, hdiv]
  by_cases hlt : p < data.length * 8
  · rw [if_pos hlt, if_pos (by omega)]
  · rw [if_neg hlt, if_neg (by omega)]

/-- C8 counterexample: `scale_to_8` is not monotone over all raw values at
`width_bits = 8`: raw 255 maps to 255 but raw 256 wraps through the
`& 0xFF` to 0. -/
theorem c8_counterexample :
    (255 : Nat) ≤ 256 ∧ ¬ scale_to_8 255 8 ≤ scale_to_8 256 8 := by decide

/-- C8 amended: `scale_to_8` is monotone non-decreasing in the raw value
for fixed `width_bits` once the raw value is restricted to its own width
(`raw < 2^width_bits`, which every field the renderer extracts satisfies),
and the endpoint laws `scale_to_8 0 w = 0` and `scale_to_8 (2^w - 1) w =
255` hold for all `w` in [1,8]. -/
theorem c8_scaler_monotone_endpoints :
    (∀ w r1 r2, w ≤ 64 → r1 ≤ r2 → r2 < 2 ^ w →
       scale_to_8 r1 w ≤ scale_to_8 r2 w) ∧
    (∀ w, 1 ≤ w → w ≤ 8 →
       scale_to_8 0 w = 0 ∧ scale_to_8 (2 ^ w - 1) w = 255) := by
  constructor
  · intro w r1 r2 hw h12 h2
    unfold scale_to_8
    by_cases h0 : w = 0
    · subst h0
      simp
    rw [if_neg h0, if_neg h0]
    by_cases h8 : 8 ≤ w
    · rw [if_pos h8, if_pos h8]
      by_cases he : w = 8
      · subst he
        rw [if_pos rfl, if_pos rfl]
        have h1 : r1 < 256 := by omega
        have h2' : r2 < 256 := by
          have : (2 : Nat) ^ 8 = 256 := by norm_num
          omega
        rw [Nat.mod_eq_of_lt (by omega), Nat.mod_eq_of_lt h2']
        exact h12
      · rw [if_neg he, if_neg he]
        have hpow : 2 ^ (w - 8) * 2 ^ 8 = 2 ^ w := by
          rw [← pow_add]
          congr 1
          omega
        have hr2 : r2 / 2 ^ (w - 8) < 256 := by
          rw [Nat.div_lt_iff_lt_mul (Nat.pos_pow_of_pos _ (by norm_num))]
          calc r2 < 2 ^ w := h2
            _ = 256 * 2 ^ (w - 8) := by rw [← hpow]; ring
        have hr1 : r1 / 2 ^ (w - 8) < 256 :=
          lt_of_le_of_lt (Nat.div_le_div_right h12) hr2
        rw [Nat.mod_eq_of_lt hr1, Nat.mod_eq_of_lt hr2]
        exact Nat.div_le_div_right h12
    · rw [if_neg h8, if_neg h8]
      have hm : 2 ^ w ≤ 128 := by
        calc (2 : Nat) ^ w ≤ 2 ^ 7 := Nat.pow_le_pow_right (by norm_num) (by omega)
          _ = 128 := by norm_num
      have hm1 : 2 ≤ 2 ^ w := by
        calc (2 : Nat) = 2 ^ 1 := (pow_one 2).symm
          _ ≤ 2 ^ w := Nat.pow_le_pow_right (by norm_num) (by omega)
      have hmaxpos : 0 < 2 ^ w - 1 := by omega
      have hn2 : r2 * 255 + (2 ^ w - 1) / 2 < U64 := by
        unfold U64
        omega
      have hn1 : r1 * 255 + (2 ^ w - 1) / 2 < U64 := by
        unfold U64
        omega
      have hv2 : (r2 * 255 + (2 ^ w - 1) / 2) / (2 ^ w - 1) < 256 := by
        rw [Nat.div_lt_iff_lt_mul hmaxpos]
        omega
      have hv1 : (r1 * 255 + (2 ^ w - 1) / 2) / (2 ^ w - 1) < 256 := by
        rw [Nat.div_lt_iff_lt_mul hmaxpos]
        omega
      rw [Nat.mod_eq_of_lt hn1, Nat.mod_eq_of_lt hn2,
          Nat.mod_eq_of_lt hv1, Nat.mod_eq_of_lt hv2]
      exact Nat.div_le_div_right (by omega)
  · intro w h1 h8
    interval_cases w <;> exact ⟨by decide, by decide⟩

/-- C8 witness: concrete instances of both conjuncts at `w = 5` and
`w = 4`. -/
theorem c8_scaler_check :
    scale_to_8 3 5 ≤ scale_to_8 9 5 ∧
    scale_to_8 0 4 = 0 ∧ scale_to_8 15 4 = 255 :=
  ⟨c8_scaler_monotone_endpoints.1 5 3 9 (by decide) (by decide) (by decide),
   (c8_scaler_monotone_endpoints.2 4 (by decide) (by decide)).1,
   (c8_scaler_monotone_endpoints.2 4 (by decide) (by decide)).2⟩

/-- C9: at `bpp = 64` with `little_endian = true` the final mask
`(1ull << bpp) - 1ull` shifts a 64-bit word by 64 (out of range; the target
masks the count, collapsing the mask to 0), so the double byte-swap of 1
returns 0 instead of the claimed `1 & mask(64) = 1`; at `bpp = 16` the
byte-swap is self-inverse as claimed (`0x1234` round-trips).  The
big-endian branch of the same function guards `bpp >= 64` explicitly, so
the little-endian mask omits the guard by mistake. -/
theorem c9_mask_shift_out_of_range :
    adjust_endianness_pixel (adjust_endianness_pixel 1 64 true) 64 true = 0 ∧
    adjust_endianness_pixel (adjust_endianness_pixel 4660 16 true) 16 true = 4660 := by
  decide

/-- The C2 counterexample state: 9 zero bytes, `bits_per_pixel = 65`
(outside [1,64]), width 1, MSB-first, big-endian, start bit 0. -/
def c2_state : ViewerState := ⟨List.replicate 9 0, 0, 1, 65, 0, true, false⟩

set_option maxRecDepth 4000 in
/-- C2 counterexample: with `bits_per_pixel = 65` the renderer neither
rejects nor clamps the configuration: it proceeds through the normal
windowing arithmetic (`pixels_available = 72 / 65 = 1`) and renders one
pixel. -/
theorem c2_counterexample :
    render_viewport c2_state preset_gray4 1 = ⟨[0, 0, 0, 255], 1⟩ := by decide

/-- C2 amended: `render_viewport` performs no validation of
`bits_per_pixel`; any `bpp ≥ 65` flows through the normal windowing
arithmetic and, whenever the window is nonempty (and within the
implementation's 32-bit arithmetic range), produces a nonempty raster
rather than a rejected configuration.  (For `bpp = 0` the code divides by
`bits_per_pixel` with no guard — division by zero.) -/
theorem c2_no_validation (s : ViewerState) (preset : Preset) (rows : Nat)
    (hbpp : 65 ≤ s.bpp)
    (hstart : startBit s < totalBits s)
    (hpa : 1 ≤ pixelsAvailable s) (hpa32 : pixelsAvailable s < U32)
    (hrows : 1 ≤ rows) (hrw : rows * widthOf s < 2 ^ 31) :
    1 ≤ (render_viewport s preset rows).rows_rendered ∧
    (render_viewport s preset rows).pixels ≠ [] := by
  have hw : 1 ≤ widthOf s := le_max_left 1 s.width_px
  have hU31 : (2 : Nat) ^ 31 < U32 := by unfold U32; norm_num
  have hptr : rows * widthOf s % U32 = rows * widthOf s := Nat.mod_eq_of_lt (by omega)
  have hpam : pixelsAvailable s % U32 = pixelsAvailable s := Nat.mod_eq_of_lt hpa32
  have hprod : 1 ≤ rows * widthOf s := Nat.mul_pos hrows hw
  have hwle : widthOf s ≤ rows * widthOf s := by
    calc widthOf s = 1 * widthOf s := (one_mul _).symm
      _ ≤ rows * widthOf s := Nat.mul_le_mul_right _ hrows
  have hact : 1 ≤ min (rows * widthOf s % U32) (pixelsAvailable s % U32) := by
    rw [hptr, hpam]
    exact le_min hprod hpa
  have hsum : (min (rows * widthOf s % U32) (pixelsAvailable s % U32)
      + widthOf s - 1) % U32
      = min (rows * widthOf s) (pixelsAvailable s) + widthOf s - 1 := by
    rw [hptr, hpam]
    apply Nat.mod_eq_of_lt
    have h1 : min (rows * widthOf s) (pixelsAvailable s) ≤ rows * widthOf s :=
      min_le_left _ _
    have hU32val : U32 = 4294967296 := by unfold U32; norm_num
    omega
  have hrn : 1 ≤ (min (rows * widthOf s % U32) (pixelsAvailable s % U32)
      + widthOf s - 1) % U32 / widthOf s := by
    rw [hsum, Nat.le_div_iff_mul_le (by omega), one_mul]
    rw [hptr, hpam] at hact
    omega
  constructor
  · rw [render_viewport_rows s preset rows hstart (by omega)]
    exact hrn
  · rw [render_viewport_pixels s preset rows hstart (by omega)]
    intro hnil
    have hlen := congrArg List.length hnil
    rw [length_flatMap_four _ _ (by
      intro a _
      by_cases hpaa : pixelsAvailable s ≤ a
      · simp only [if_pos hpaa]
        rfl
      · simp only [if_neg hpaa]
        rfl), List.length_range, List.length_nil] at hlen
    have : 1 ≤ (min (rows * widthOf s % U32) (pixelsAvailable s % U32)
        + widthOf s - 1) % U32 / widthOf s * widthOf s := Nat.mul_le_mul hrn hw
    omega

/-- C2 amended witness: the `bpp = 65` state renders a nonempty raster. -/
theorem c2_no_validation_check :
    1 ≤ (render_viewport c2_state preset_gray4 1).rows_rendered ∧
    (render_viewport c2_state preset_gray4 1).pixels ≠ [] :=
  c2_no_validation c2_state preset_gray4 1 (by decide) (by decide) (by decide)
    (by decide) (by decide) (by decide)

/-- The C4 scenario state: buffer `[0b10110100, 0]`, `bpp = 4`, MSB-first,
big-endian, start bit 0, row width 4. -/
def c4_state : ViewerState := ⟨[180, 0], 0, 4, 4, 0, true, false⟩

/-- C4 counterexample: in the spec's scenario the second pixel's red byte
(raster index 4) is not the claimed 69: `scale_to_8(4, 4) = (4*255 + 7) / 15
= 1027 / 15 = 68` (the spec's arithmetic `(4*255+7)/15 = 69` is wrong). -/
theorem c4_counterexample :
    (render_viewport c4_state preset_gray4 1).pixels.getD 4 0 ≠ 69 := by decide

/-- C4 amended: the scenario renders the four grayscale pixels
`(187,187,187), (68,68,68), (0,0,0), (0,0,0)`, alpha 255 throughout, in one
row — identical to the claim except that the second sample scales to 68,
not 69. -/
theorem c4_scenario :
    render_viewport c4_state preset_gray4 1 =
      ⟨[187, 187, 187, 255, 68, 68, 68, 255, 0, 0, 0, 255, 0, 0, 0, 255], 1⟩ := by
  decide

/-- C6: a start bit at or past the end of the buffer, or an available-pixel
count of zero, yields the empty raster with `rows_rendered = 0` — returned
normally, through the same result type as any other render. -/
theorem c6_empty_result (s : ViewerState) (preset : Preset) (rows : Nat)
    (hbpp1 : 1 ≤ s.bpp) (hbpp64 : s.bpp ≤ 64)
    (h : totalBits s ≤ startBit s ∨ pixelsAvailable s = 0) :
    render_viewport s preset rows = ⟨[], 0⟩ := by
  unfold render_viewport
  by_cases h1 : totalBits s ≤ startBit s
  · rw [if_pos h1]
  · rw [if_neg h1]
    have h2 : pixelsAvailable s = 0 := by tauto
    rw [if_pos h2]

/-- C6 witness: a 1-byte buffer with byte offset 1 has
`start_bit = 8 = total_bits`; the render is empty for any preset and row
count. -/
theorem c6_empty_result_check :
    render_viewport ⟨[5], 1, 1, 8, 0, true, false⟩ preset_gray8 3 = ⟨[], 0⟩ :=
  c6_empty_result ⟨[5], 1, 1, 8, 0, true, false⟩ preset_gray8 3
    (by decide) (by decide) (Or.inl (by decide))

/-- The C7 counterexample state: 7 bytes at `bpp = 8` give 7 available
pixels; width 4 and 2 requested rows ask for 8. -/
def c7_state : ViewerState := ⟨[1, 2, 3, 4, 5, 6, 7], 0, 4, 8, 0, true, false⟩

/-- C7 counterexample: requesting 2 rows of width 4 with only 7 pixels
available (8 requested > 7 available) still renders
`rows_rendered = ceil(7/4) = 2`, which is not strictly less than the
requested 2 rows — the last row is merely partial. -/
theorem c7_counterexample :
    (render_viewport c7_state preset_gray8 2).rows_rendered = 2 ∧
    ¬ (render_viewport c7_state preset_gray8 2).rows_rendered < 2 := by decide

/-- C7 amended: when the request overshoots the available pixels (within
the implementation's 32-bit arithmetic range),
`rows_rendered = ceil(min(requested_pixels, pixels_available) / width)`,
which is at most (not necessarily strictly less than) the requested row
count, and every raster byte from linear pixel index `pixels_available`
onward (byte index `4 * pixels_available` onward) is 0 — the tail pixels
are transparent black `(0,0,0,0)`. -/
theorem c7_partial_window (s : ViewerState) (preset : Preset) (rows : Nat)
    (hbpp1 : 1 ≤ s.bpp) (hbpp64 : s.bpp ≤ 64)
    (hstart : startBit s < totalBits s)
    (hpa : 1 ≤ pixelsAvailable s)
    (hover : pixelsAvailable s < rows * widthOf s)
    (hint : rows * widthOf s < 2 ^ 31) :
    (render_viewport s preset rows).rows_rendered =
      (min (rows * widthOf s) (pixelsAvailable s) + widthOf s - 1) / widthOf s ∧
    (render_viewport s preset rows).rows_rendered ≤ rows ∧
    ∀ i, 4 * pixelsAvailable s ≤ i →
      (render_viewport s preset rows).pixels.getD i 0 = 0 := by
  have hw : 1 ≤ widthOf s := le_max_left 1 s.width_px
  have hU31 : (2 : Nat) ^ 31 < U32 := by unfold U32; norm_num
  have hptr : rows * widthOf s % U32 = rows * widthOf s := Nat.mod_eq_of_lt (by omega)
  have hpam : pixelsAvailable s % U32 = pixelsAvailable s := Nat.mod_eq_of_lt (by omega)
  have hrows : 1 ≤ rows := by
    rcases Nat.eq_zero_or_pos rows with h0 | h0
    · rw [h0, Nat.zero_mul] at hover
      omega
    · exact h0
  have hwle : widthOf s ≤ rows * widthOf s := by
    calc widthOf s = 1 * widthOf s := (one_mul _).symm
      _ ≤ rows * widthOf s := Nat.mul_le_mul_right _ hrows
  have hmin : min (rows * widthOf s) (pixelsAvailable s) = pixelsAvailable s :=
    min_eq_right (le_of_lt hover)
  have hsum : (min (rows * widthOf s % U32) (pixelsAvailable s % U32)
      + widthOf s - 1) % U32 = pixelsAvailable s + widthOf s - 1 := by
    rw [hptr, hpam, hmin]
    apply Nat.mod_eq_of_lt
    have hU32val : U32 = 4294967296 := by unfold U32; norm_num
    omega
  refine ⟨?_, ?_, ?_⟩
  · rw [render_viewport_rows s preset rows hstart (by omega), hsum, hmin]
  · rw [render_viewport_rows s preset rows hstart (by omega), hsum]
    have hlt : (pixelsAvailable s + widthOf s - 1) / widthOf s < rows + 1 := by
      rw [Nat.div_lt_iff_lt_mul (by omega)]
      have hexp : (rows + 1) * widthOf s = rows * widthOf s + widthOf s := by ring
      omega
    omega
  · intro i hi
    rw [render_viewport_pixels s preset rows hstart (by omega), hsum]
    have hdm := Nat.div_add_mod (pixelsAvailable s + widthOf s - 1) (widthOf s)
    have hmlt : (pixelsAvailable s + widthOf s - 1) % widthOf s < widthOf s :=
      Nat.mod_lt _ (by omega)
    have hpaN : pixelsAvailable s ≤
        (pixelsAvailable s + widthOf s - 1) / widthOf s * widthOf s := by
      rw [Nat.mul_comm]
      generalize ht : widthOf s * ((pixelsAvailable s + widthOf s - 1) / widthOf s) = t
        at hdm
      omega
    exact tail_getD_zero (pixelsAvailable s) _ i _
      (fun p => decode_pixel_length s preset (totalBits s) (startBit s + p * s.bpp))
      hpaN hi

/-- C7 amended witness: the 7-pixel state renders 2 rows (= ceil(7/4)), at
most the 2 requested, and the last raster pixel (byte index 28) is 0. -/
theorem c7_partial_window_check :
    (render_viewport c7_state preset_gray8 2).rows_rendered =
      (min (2 * widthOf c7_state) (pixelsAvailable c7_state) + widthOf c7_state - 1)
        / widthOf c7_state ∧
    (render_viewport c7_state preset_gray8 2).rows_rendered ≤ 2 ∧
    (render_viewport c7_state preset_gray8 2).pixels.getD 28 0 = 0 :=
  ⟨(c7_partial_window c7_state preset_gray8 2 (by decide) (by decide) (by decide)
      (by decide) (by decide) (by decide)).1,
   (c7_partial_window c7_state preset_gray8 2 (by decide) (by decide) (by decide)
      (by decide) (by decide) (by decide)).2.1,
   (c7_partial_window c7_state preset_gray8 2 (by decide) (by decide) (by decide)
      (by decide) (by decide) (by decide)).2.2 28 (by decide)⟩

/-- C10: the returned RGBA byte array always has length
`rows_rendered * max(1, row_width_px) * 4` — the empty cases return a
cleared buffer with `rows_rendered = 0`, and the main path allocates
`rows_needed * width * 4` bytes. -/
theorem c10_output_length (s : ViewerState) (preset : Preset) (rows : Nat)
    (hbpp1 : 1 ≤ s.bpp) (hbpp64 : s.bpp ≤ 64) :
    (render_viewport s preset rows).pixels.length =
      (render_viewport s preset rows).rows_rendered * max 1 s.width_px * 4 := by
  by_cases h1 : totalBits s ≤ startBit s
  · unfold render_viewport
    rw [if_pos h1]
    simp
  · by_cases h2 : pixelsAvailable s = 0
    · unfold render_viewport
      rw [if_neg h1, if_pos h2]
      simp
    · rw [render_viewport_pixels s preset rows (by omega) h2,
          render_viewport_rows s preset rows (by omega) h2]
      rw [length_flatMap_four _ _ (by
        intro a _
        by_cases hpaa : pixelsAvailable s ≤ a
        · simp only [if_pos hpaa]
          rfl
        · simp only [if_neg hpaa]
          rfl), List.length_range]
      unfold widthOf
      ring

/-- C10 witness: the C4 scenario raster has 16 bytes = 1 row × width 4 × 4
channels. -/
theorem c10_output_length_check :
    (render_viewport c4_state preset_gray4 1).pixels.length =
      (render_viewport c4_state preset_gray4 1).rows_rendered
        * max 1 c4_state.width_px * 4 :=
  c10_output_length c4_state preset_gray4 1 (by decide) (by decide)

end RawViewer
